import Mathlib

/-!
Verification of the spreadsheet ingestion and column-analysis pipeline of
the Excelera backend (`src/utils/excelProcessor.js`).

The JavaScript source is shallowly embedded: dynamic cell values become the
`JSValue` variant, rows become association lists from header strings to
values (a missing key reads as the `undef` sentinel, as in JS), JS numbers
are modelled as exact rationals, and the three exported functions
`processExcelFile`, `validateExcelData` and `getColumnStatistics` become
total Lean functions over that model.  The external `xlsx` parser is an
out-of-scope collaborator; its outcome is passed to `processExcelFile` as
an `Except` value standing for the try/catch boundary in the source.
-/

namespace Excelera

/-- A dynamic JavaScript value as it occurs in a parsed spreadsheet cell:
a number (modelled as an exact rational), a string, a boolean, `null`,
or the `undefined` sentinel. -/
inductive JSValue where
  | num : ℚ → JSValue
  | str : String → JSValue
  | bool : Bool → JSValue
  | null : JSValue
  | undef : JSValue
deriving DecidableEq, Repr

/-- A row record: an association list from header name to cell value,
embedding a JS object produced by `xlsx.utils.sheet_to_json`. -/
abbrev Row := List (String × JSValue)

/-- `row[columnName]` in JS: the value stored at the key, or `undefined`
when the key is absent. -/
def rowGet (row : Row) (k : String) : JSValue :=
  match row.find? (fun p => p.1 == k) with
  | some p => p.2
  | none => JSValue.undef

/-- `Object.keys(row)`: the keys of the record in insertion order. -/
def rowKeys (row : Row) : List String := row.map Prod.fst

/-- JS whitespace characters stripped by string-to-number coercion
(space, tab, newline, carriage return). -/
def isJsSpace (c : Char) : Bool :=
  c == ' ' || c == '\t' || c == '\n' || c == '\r'

/-- Digits-to-natural accumulator for the numeric-literal grammar. -/
def digitsToNat (cs : List Char) : Nat :=
  cs.foldl (fun n c => n * 10 + (c.toNat - 48)) 0

/-- Exponent suffix of a JS numeric literal: optional sign followed by a
nonempty digit string, scaling the mantissa by a power of ten. -/
def applyExponent (m : ℚ) (cs : List Char) : Option ℚ :=
  match cs with
  | '-' :: ds =>
      if ds ≠ [] ∧ ds.all Char.isDigit then some (m / 10 ^ digitsToNat ds) else none
  | '+' :: ds =>
      if ds ≠ [] ∧ ds.all Char.isDigit then some (m * 10 ^ digitsToNat ds) else none
  | ds =>
      if ds ≠ [] ∧ ds.all Char.isDigit then some (m * 10 ^ digitsToNat ds) else none

/-- Unsigned decimal literal: integer digits, optional fraction, optional
exponent; at least one digit must be present.  `none` models `NaN`. -/
def parseUnsigned (cs : List Char) : Option ℚ :=
  let ip := cs.takeWhile Char.isDigit
  let rest := cs.dropWhile Char.isDigit
  match rest with
  | [] => if ip = [] then none else some (digitsToNat ip : ℚ)
  | '.' :: rest2 =>
      let fp := rest2.takeWhile Char.isDigit
      let rest3 := rest2.dropWhile Char.isDigit
      if ip = [] ∧ fp = [] then none
      else
        let mant : ℚ := (digitsToNat ip : ℚ) + (digitsToNat fp : ℚ) / 10 ^ fp.length
        match rest3 with
        | [] => some mant
        | e :: rest4 =>
            if e == 'e' || e == 'E' then applyExponent mant rest4 else none
  | e :: rest4 =>
      if (e == 'e' || e == 'E') && ip ≠ [] then
        applyExponent (digitsToNat ip : ℚ) rest4
      else none

/-- JS `Number(string)`: whitespace is trimmed, the empty (or all-blank)
string coerces to `0`, otherwise a signed decimal literal is parsed;
anything else is `NaN`, modelled as `none`. -/
def strToNumber (s : String) : Option ℚ :=
  let t := ((s.toList.dropWhile isJsSpace).reverse.dropWhile isJsSpace).reverse
  match t with
  | [] => some 0
  | '-' :: rest => (parseUnsigned rest).map (fun q => -q)
  | '+' :: rest => parseUnsigned rest
  | _ => parseUnsigned t

/-- JS `Number(v)` coercion: numbers are themselves, strings go through the
numeric-literal grammar, `true`/`false` become `1`/`0`, `null` becomes `0`,
and `undefined` is `NaN` (`none`). -/
def toNumber : JSValue → Option ℚ
  | JSValue.num q => some q
  | JSValue.str s => strToNumber s
  | JSValue.bool b => some (if b then 1 else 0)
  | JSValue.null => some 0
  | JSValue.undef => none

/-- The numeric value a coercible `JSValue` maps to inside the numeric
branch (`values.map(Number)`); defaults to `0`, which the coercibility
guard makes unreachable. -/
def jsNumber (v : JSValue) : ℚ := (toNumber v).getD 0

/-- JS `typeof v` for the primitive values in the model
(`typeof null` is `"object"` in JS). -/
def typeofTag : JSValue → String
  | JSValue.num _ => "number"
  | JSValue.str _ => "string"
  | JSValue.bool _ => "boolean"
  | JSValue.null => "object"
  | JSValue.undef => "undefined"

/-- `[...new Set(values)]`: deduplication in first-insertion order, with an
accumulator of already-seen values. -/
def dedupFirstAux (seen : List JSValue) : List JSValue → List JSValue
  | [] => []
  | v :: vs =>
      if v ∈ seen then dedupFirstAux seen vs
      else v :: dedupFirstAux (v :: seen) vs

/-- `[...new Set(values)]` on an empty seen-set. -/
def dedupFirst (l : List JSValue) : List JSValue := dedupFirstAux [] l

/-- The column projection of `getColumnStatistics`:
`data.map(row => row[columnName]).filter(val => val !== undefined)`. -/
def columnValues (data : List Row) (columnName : String) : List JSValue :=
  (data.map (fun row => rowGet row columnName)).filter
    (fun v => decide (v ≠ JSValue.undef))

/-- Result record of `getColumnStatistics`: either the numeric record
`{min, max, average, sum, count}` or the categorical record
`{uniqueValues, count, type: "categorical"}`. -/
inductive ColumnStats where
  | numeric (min max average sum : ℚ) (count : Nat)
  | categorical (uniqueValues : List JSValue) (count : Nat)
deriving DecidableEq, Repr

/-- The `type` tag of a statistics record (`"categorical"` on the
categorical branch; the numeric record carries no tag in the source). -/
def ColumnStats.statsType : ColumnStats → Option String
  | ColumnStats.numeric .. => none
  | ColumnStats.categorical .. => some "categorical"

/-- Whether a statistics record is the numeric-branch record. -/
def ColumnStats.isNumeric : ColumnStats → Bool
  | ColumnStats.numeric .. => true
  | ColumnStats.categorical .. => false

/-- `getColumnStatistics(data, columnName)` from the source: project the
column discarding `undefined`, return `null` when nothing remains; if every
surviving value passes `!isNaN(val)` take the numeric branch
(`Math.min`/`Math.max` over the coerced values, left fold sum from zero,
`average = sum / count`), otherwise the categorical branch
(`[...new Set(values)]`, `count`, tag `"categorical"`). -/
def getColumnStatistics (data : List Row) (columnName : String) :
    Option ColumnStats :=
  match columnValues data columnName with
  | [] => none
  | v :: vs =>
      if (v :: vs).all (fun x => (toNumber x).isSome) then
        let n0 := jsNumber v
        let ns := vs.map jsNumber
        let s := (n0 :: ns).foldl (· + ·) 0
        some (ColumnStats.numeric (ns.foldl min n0) (ns.foldl max n0)
          (s / ((n0 :: ns).length : ℚ)) s (n0 :: ns).length)
      else
        some (ColumnStats.categorical (dedupFirst (v :: vs)) (v :: vs).length)

/-- Result record of `validateExcelData`. -/
structure ValidationResult where
  hasData : Bool
  hasHeaders : Bool
  isConsistent : Bool
deriving DecidableEq, Repr

/-- `validateExcelData(data)` from the source: `hasData` is
`data.length > 0`, `hasHeaders` counts the keys of `data[0] || {}`, and
`isConsistent` starts `true` and, when `data.length > 1`, requires every
row's key count to equal the first row's. -/
def validateExcelData (data : List Row) : ValidationResult :=
  { hasData := data.length > 0
    hasHeaders := (rowKeys (data.headD [])).length > 0
    isConsistent :=
      if data.length > 1 then
        data.all (fun row =>
          (rowKeys row).length == (rowKeys (data.headD [])).length)
      else true }

/-- One sheet of the decoded workbook: its name and the row records
produced by `xlsx.utils.sheet_to_json`. -/
structure Worksheet where
  name : String
  rows : List Row
deriving DecidableEq, Repr

/-- The decoded workbook: sheets in the file's internal order. -/
abbrev Workbook := List Worksheet

/-- The normalized per-sheet record emitted by `processExcelFile`. -/
structure NormalizedSheet where
  sheetName : String
  headers : List String
  columnTypes : List (String × String)
  data : List Row
  rowCount : Nat
  columnCount : Nat
deriving DecidableEq, Repr

/-- The per-sheet body of `processExcelFile`: headers are
`Object.keys(jsonData[0] || {})`, each column type is
`typeof jsonData[0]?.[header]`, and the counts are recomputed lengths. -/
def processSheet (sheetName : String) (jsonData : List Row) :
    NormalizedSheet :=
  let headers := rowKeys (jsonData.headD [])
  let columnTypes :=
    headers.map (fun h => (h, typeofTag (rowGet (jsonData.headD []) h)))
  { sheetName := sheetName
    headers := headers
    columnTypes := columnTypes
    data := jsonData
    rowCount := jsonData.length
    columnCount := headers.length }

/-- The two result shapes of `processExcelFile`:
`{success: true, data, totalSheets}` or `{success: false, error}`. -/
inductive ProcessResult where
  | ok (data : List NormalizedSheet) (totalSheets : Nat)
  | err (error : String)
deriving DecidableEq, Repr

/-- `processExcelFile(buffer)` from the source.  Decoding the byte buffer
is done by the external `xlsx` library; its outcome (a workbook, or the
thrown parse error's message caught by the try/catch) is the `decoded`
argument.  On a decoded workbook every sheet is normalized in order and
`totalSheets` is the sheet count; on a parse failure the error message is
returned in the failure shape. -/
def processExcelFile (decoded : Except String Workbook) : ProcessResult :=
  match decoded with
  | Except.error msg => ProcessResult.err msg
  | Except.ok wb =>
      ProcessResult.ok (wb.map (fun ws => processSheet ws.name ws.rows))
        wb.length

/-- The coerced numeric view of a column, as the spec describes it:
every surviving value sent through the number coercion. -/
def coercedColumn (data : List Row) (columnName : String) : List ℚ :=
  (columnValues data columnName).filterMap toNumber

/-- The mixed column `[1, "x", 3]` of the spec's test vector, one value
per row under header `"col"`. -/
def mixedColumn : List Row :=
  [[("col", JSValue.num 1)], [("col", JSValue.str "x")], [("col", JSValue.num 3)]]

/-- The all-numeric column `[1, 2, 3]` of the spec's test vector. -/
def oneTwoThree : List Row :=
  [[("col", JSValue.num 1)], [("col", JSValue.num 2)], [("col", JSValue.num 3)]]

/-- The categorical column `["a", "b", "a"]` of the spec's test vector. -/
def abaColumn : List Row :=
  [[("col", JSValue.str "a")], [("col", JSValue.str "b")], [("col", JSValue.str "a")]]

/-! ### Helper lemmas -/

lemma mem_dedupFirstAux (l : List JSValue) :
    ∀ (seen : List JSValue) (x : JSValue),
      x ∈ dedupFirstAux seen l ↔ x ∈ l ∧ x ∉ seen := by
  induction l with
  | nil => intro seen x; simp [dedupFirstAux]
  | cons v vs ih =>
      intro seen x
      by_cases hv : v ∈ seen
      · simp only [dedupFirstAux, if_pos hv, ih, List.mem_cons]
        constructor
        · rintro ⟨hx, hns⟩; exact ⟨Or.inr hx, hns⟩
        · rintro ⟨hx | hx, hns⟩
          · exact absurd (hx ▸ hv) hns
          · exact ⟨hx, hns⟩
      · simp only [dedupFirstAux, if_neg hv, List.mem_cons, ih]
        by_cases hxv : x = v
        · subst hxv; simp [hv]
        · simp [hxv]

lemma nodup_dedupFirstAux (l : List JSValue) :
    ∀ seen : List JSValue, (dedupFirstAux seen l).Nodup := by
  induction l with
  | nil => intro seen; simp [dedupFirstAux]
  | cons v vs ih =>
      intro seen
      simp only [dedupFirstAux]
      by_cases hv : v ∈ seen
      · simpa [if_pos hv] using ih seen
      · rw [if_neg hv]
        refine List.Nodup.cons ?_ (ih (v :: seen))
        intro hmem
        exact ((mem_dedupFirstAux vs (v :: seen) v).mp hmem).2
          (List.mem_cons_self v seen)

lemma mem_dedupFirst (l : List JSValue) (x : JSValue) :
    x ∈ dedupFirst l ↔ x ∈ l := by
  simp [dedupFirst, mem_dedupFirstAux]

lemma nodup_dedupFirst (l : List JSValue) : (dedupFirst l).Nodup :=
  nodup_dedupFirstAux l []

lemma foldl_min_le_init (l : List ℚ) : ∀ a : ℚ, l.foldl min a ≤ a := by
  induction l with
  | nil => intro a; simp
  | cons x xs ih =>
      intro a
      simp only [List.foldl_cons]
      exact le_trans (ih (min a x)) (min_le_left a x)

lemma foldl_min_le_mem (l : List ℚ) :
    ∀ a x : ℚ, x ∈ l → l.foldl min a ≤ x := by
  induction l with
  | nil => intro a x hx; simp at hx
  | cons y ys ih =>
      intro a x hx
      simp only [List.foldl_cons]
      rcases List.mem_cons.mp hx with h | h
      · subst h
        exact le_trans (foldl_min_le_init ys (min a x)) (min_le_right a x)
      · exact ih (min a y) x h

lemma foldl_min_mem (l : List ℚ) :
    ∀ a : ℚ, l.foldl min a = a ∨ l.foldl min a ∈ l := by
  induction l with
  | nil => intro a; left; rfl
  | cons y ys ih =>
      intro a
      simp only [List.foldl_cons, List.mem_cons]
      rcases ih (min a y) with h | h
      · rcases min_choice a y with h2 | h2
        · left; rw [h, h2]
        · right; left; rw [h, h2]
      · right; right; exact h

lemma init_le_foldl_max (l : List ℚ) : ∀ a : ℚ, a ≤ l.foldl max a := by
  induction l with
  | nil => intro a; simp
  | cons x xs ih =>
      intro a
      simp only [List.foldl_cons]
      exact le_trans (le_max_left a x) (ih (max a x))

lemma mem_le_foldl_max (l : List ℚ) :
    ∀ a x : ℚ, x ∈ l → x ≤ l.foldl max a := by
  induction l with
  | nil => intro a x hx; simp at hx
  | cons y ys ih =>
      intro a x hx
      simp only [List.foldl_cons]
      rcases List.mem_cons.mp hx with h | h
      · subst h
        exact le_trans (le_max_right a x) (init_le_foldl_max ys (max a x))
      · exact ih (max a y) x h

lemma foldl_max_mem (l : List ℚ) :
    ∀ a : ℚ, l.foldl max a = a ∨ l.foldl max a ∈ l := by
  induction l with
  | nil => intro a; left; rfl
  | cons y ys ih =>
      intro a
      simp only [List.foldl_cons, List.mem_cons]
      rcases ih (max a y) with h | h
      · rcases max_choice a y with h2 | h2
        · left; rw [h, h2]
        · right; left; rw [h, h2]
      · right; right; exact h

lemma foldl_add_eq_sum (l : List ℚ) : ∀ a : ℚ, l.foldl (· + ·) a = a + l.sum := by
  induction l with
  | nil => intro a; simp
  | cons x xs ih =>
      intro a
      simp only [List.foldl_cons, List.sum_cons, ih (a + x)]
      ring

lemma getColumnStatistics_nil (data : List Row) (k : String)
    (hv : columnValues data k = []) : getColumnStatistics data k = none := by
  unfold getColumnStatistics
  rw [hv]

lemma getColumnStatistics_cons (data : List Row) (k : String) (v : JSValue)
    (vs : List JSValue) (hv : columnValues data k = v :: vs) :
    getColumnStatistics data k =
      if (v :: vs).all (fun x => (toNumber x).isSome) then
        some (ColumnStats.numeric
          ((vs.map jsNumber).foldl min (jsNumber v))
          ((vs.map jsNumber).foldl max (jsNumber v))
          (((jsNumber v :: vs.map jsNumber).foldl (· + ·) 0)
            / ((jsNumber v :: vs.map jsNumber).length : ℚ))
          ((jsNumber v :: vs.map jsNumber).foldl (· + ·) 0)
          (jsNumber v :: vs.map jsNumber).length)
      else
        some (ColumnStats.categorical (dedupFirst (v :: vs))
          (v :: vs).length) := by
  unfold getColumnStatistics
  rw [hv]

/-! ### Claims -/

/-- C3: `getColumnStatistics` returns `null` exactly when zero
non-undefined values survive the column projection; in every other case it
returns some well-formed record, and being a total Lean function it never
raises. -/
theorem getColumnStatistics_null_iff_empty (data : List Row) (k : String) :
    (getColumnStatistics data k = none ↔ columnValues data k = []) ∧
    (columnValues data k ≠ [] → ∃ s, getColumnStatistics data k = some s) := by
  cases hv : columnValues data k with
  | nil => simp [getColumnStatistics_nil data k hv, hv]
  | cons v vs =>
      rw [getColumnStatistics_cons data k v vs hv]
      refine ⟨iff_of_false ?_ (by simp), fun _ => ?_⟩
      · split <;> simp
      · split
        · exact ⟨_, rfl⟩
        · exact ⟨_, rfl⟩

/-- C1: the branch decision of `getColumnStatistics` is all-or-nothing —
once the projected column is non-empty, the numeric record is produced
exactly when every surviving value is numeric-coercible, and one
non-coercible value forces the categorical record; the mixed column
`[1, "x", 3]` yields the categorical record with count 3 and unique values
`{1, "x", 3}`. -/
theorem getColumnStatistics_classification (data : List Row) (k : String)
    (hne : columnValues data k ≠ []) :
    ((∃ mn mx avg sm c, getColumnStatistics data k
        = some (ColumnStats.numeric mn mx avg sm c)) ↔
      ∀ v ∈ columnValues data k, (toNumber v).isSome) ∧
    ((∃ v ∈ columnValues data k, ¬ (toNumber v).isSome = true) →
      ∃ u c, getColumnStatistics data k
        = some (ColumnStats.categorical u c)) ∧
    getColumnStatistics mixedColumn "col"
      = some (ColumnStats.categorical
          [JSValue.num 1, JSValue.str "x", JSValue.num 3] 3) := by
  cases hv : columnValues data k with
  | nil => exact absurd hv hne
  | cons v vs =>
      rw [getColumnStatistics_cons data k v vs hv]
      by_cases hall : (v :: vs).all (fun x => (toNumber x).isSome) = true
      · rw [if_pos hall]
        refine ⟨?_, ?_, by decide⟩
        · exact iff_of_true ⟨_, _, _, _, _, rfl⟩ (List.all_eq_true.mp hall)
        · rintro ⟨w, hw, hbadw⟩
          exact absurd (List.all_eq_true.mp hall w hw) hbadw
      · rw [if_neg hall]
        refine ⟨?_, fun _ => ⟨_, _, rfl⟩, by decide⟩
        refine iff_of_false ?_ ?_
        · rintro ⟨mn, mx, avg, sm, c, hcontra⟩
          simp at hcontra
        · intro hforall
          exact hall (List.all_eq_true.mpr hforall)

/-- C4: on the categorical branch the record holds the distinct raw values
(as a duplicate-free list with the same members as the projected column),
the count of all non-undefined values, and the `"categorical"` tag; the
column `["a", "b", "a"]` yields unique values `{"a", "b"}` with count 3. -/
theorem getColumnStatistics_categorical_spec (data : List Row) (k : String)
    (hbad : ∃ v ∈ columnValues data k, ¬ (toNumber v).isSome = true) :
    (∃ u, getColumnStatistics data k
        = some (ColumnStats.categorical u (columnValues data k).length) ∧
      (∀ x, x ∈ u ↔ x ∈ columnValues data k) ∧ u.Nodup ∧
      ColumnStats.statsType
          (ColumnStats.categorical u (columnValues data k).length)
        = some "categorical") ∧
    getColumnStatistics abaColumn "col"
      = some (ColumnStats.categorical [JSValue.str "a", JSValue.str "b"] 3) := by
  refine ⟨?_, by decide⟩
  cases hv : columnValues data k with
  | nil => simp [hv] at hbad
  | cons v vs =>
      have hall : ¬ (v :: vs).all (fun x => (toNumber x).isSome) = true := by
        intro h
        rcases hbad with ⟨w, hw, hbadw⟩
        rw [hv] at hw
        exact hbadw (List.all_eq_true.mp h w hw)
      rw [getColumnStatistics_cons data k v vs hv, if_neg hall]
      exact ⟨dedupFirst (v :: vs), rfl,
        fun x => (mem_dedupFirst (v :: vs) x), nodup_dedupFirst (v :: vs), rfl⟩

/-- Witness for C3 at the empty row list and at the `[1,2,3]` column. -/
theorem getColumnStatistics_null_iff_empty_witness :
    getColumnStatistics ([] : List Row) "col" = none ∧
    (∃ s, getColumnStatistics oneTwoThree "col" = some s) :=
  ⟨(getColumnStatistics_null_iff_empty [] "col").1.mpr (by decide),
    (getColumnStatistics_null_iff_empty oneTwoThree "col").2 (by decide)⟩

/-- Witness for C1 at the mixed column `[1, "x", 3]`. -/
theorem getColumnStatistics_classification_witness :
    ∃ u c, getColumnStatistics mixedColumn "col"
      = some (ColumnStats.categorical u c) :=
  (getColumnStatistics_classification mixedColumn "col" (by decide)).2.1
    ⟨JSValue.str "x", by decide, by decide⟩

/-- Witness for C4 at the column `["a", "b", "a"]`. -/
theorem getColumnStatistics_categorical_spec_witness :
    ∃ u, getColumnStatistics abaColumn "col"
        = some (ColumnStats.categorical u
            (columnValues abaColumn "col").length) ∧
      (∀ x, x ∈ u ↔ x ∈ columnValues abaColumn "col") ∧ u.Nodup ∧
      ColumnStats.statsType
          (ColumnStats.categorical u (columnValues abaColumn "col").length)
        = some "categorical" :=
  (getColumnStatistics_categorical_spec abaColumn "col"
    ⟨JSValue.str "a", by decide, by decide⟩).1

/-- C5: every sheet record emitted on the success branch of
`processExcelFile` satisfies `rowCount = data.length` and
`columnCount = headers.length`, so both counts are recomputable from the
emitted fields. -/
theorem processExcelFile_counts (decoded : Except String Workbook)
    (out : List NormalizedSheet) (n : Nat) (s : NormalizedSheet)
    (hres : processExcelFile decoded = ProcessResult.ok out n)
    (hs : s ∈ out) :
    s.rowCount = s.data.length ∧ s.columnCount = s.headers.length := by
  cases decoded with
  | error msg => simp [processExcelFile] at hres
  | ok wb =>
      simp only [processExcelFile, ProcessResult.ok.injEq] at hres
      rcases hres with ⟨hout, hn⟩
      subst hout
      rcases List.mem_map.mp hs with ⟨ws, hws, hsheet⟩
      subst hsheet
      exact ⟨rfl, rfl⟩

/-- A one-sheet, one-row decoded workbook used as a concrete witness. -/
def sampleWorkbook : Workbook := [⟨"Sheet1", [[("a", JSValue.str "x")]]⟩]

/-- Witness for C5 on a concrete one-sheet workbook. -/
theorem processExcelFile_counts_witness :
    (processSheet "Sheet1" [[("a", JSValue.str "x")]]).rowCount
        = (processSheet "Sheet1" [[("a", JSValue.str "x")]]).data.length ∧
    (processSheet "Sheet1" [[("a", JSValue.str "x")]]).columnCount
        = (processSheet "Sheet1" [[("a", JSValue.str "x")]]).headers.length :=
  processExcelFile_counts (Except.ok sampleWorkbook)
    [processSheet "Sheet1" [[("a", JSValue.str "x")]]] 1
    (processSheet "Sheet1" [[("a", JSValue.str "x")]]) (by decide) (by decide)

/-- C6: `validateExcelData` reports `hasData` exactly on non-empty input,
`hasHeaders` exactly when the first row has at least one key, and
`isConsistent` exactly when every row has the first row's key count
(vacuously on zero or one rows); on `[]` it returns
`{hasData: false, hasHeaders: false, isConsistent: true}`. -/
theorem validateExcelData_spec :
    (∀ data : List Row,
      ((validateExcelData data).hasData = true ↔ data ≠ []) ∧
      ((validateExcelData data).hasHeaders = true ↔
        rowKeys (data.headD []) ≠ []) ∧
      ((validateExcelData data).isConsistent = true ↔
        ∀ row ∈ data, (rowKeys row).length
          = (rowKeys (data.headD [])).length)) ∧
    validateExcelData [] = ⟨false, false, true⟩ := by
  refine ⟨fun data => ⟨?_, ?_, ?_⟩, by decide⟩
  · simp [validateExcelData, List.length_pos]
  · simp [validateExcelData, List.length_pos]
  · match data with
    | [] => simp [validateExcelData]
    | [r] => simp [validateExcelData]
    | r1 :: r2 :: rs =>
        have hlen : (r1 :: r2 :: rs : List Row).length > 1 := by
          simp [List.length_cons]
        simp only [validateExcelData, if_pos hlen, List.all_eq_true,
          List.headD_cons, beq_iff_eq]

/-- C7: `processExcelFile` is total and two-shaped: a decoded workbook
yields the success shape with one normalized sheet per source sheet in
source order and `totalSheets` equal to the sheet count (the zero-sheet
workbook succeeding with empty data), and a parse failure yields the
failure shape carrying the parser's message. -/
theorem processExcelFile_shape :
    (∀ wb : Workbook, ∃ out,
      processExcelFile (Except.ok wb) = ProcessResult.ok out wb.length ∧
      out.length = wb.length ∧
      out.map NormalizedSheet.sheetName = wb.map Worksheet.name) ∧
    processExcelFile (Except.ok []) = ProcessResult.ok [] 0 ∧
    (∀ msg, processExcelFile (Except.error msg)
      = ProcessResult.err msg) := by
  refine ⟨fun wb => ⟨wb.map (fun ws => processSheet ws.name ws.rows),
    ?_, by simp, ?_⟩, rfl, fun msg => rfl⟩
  · rfl
  · simp [List.map_map, Function.comp, processSheet]

/-- Witness for C6: uniform two-row input is consistent. -/
theorem validateExcelData_spec_witness :
    (validateExcelData [[("a", JSValue.num 1)], [("b", JSValue.num 2)]]
      ).isConsistent = true :=
  ((validateExcelData_spec.1
      [[("a", JSValue.num 1)], [("b", JSValue.num 2)]]).2.2).mpr (by decide)

/-- Witness for C7: the failure branch carries the parser message. -/
theorem processExcelFile_shape_witness :
    processExcelFile (Except.error "bad file") = ProcessResult.err "bad file" :=
  processExcelFile_shape.2.2 "bad file"

lemma lookup_map_self (f : String → String) (l : List String) :
    ∀ k ∈ l, (l.map (fun h2 => (h2, f h2))).lookup k = some (f k) := by
  induction l with
  | nil => intro k hk; simp at hk
  | cons x xs ih =>
      intro k hk
      by_cases hkx : k = x
      · subst hkx
        simp [List.lookup]
      · have hk2 : k ∈ xs := by
          rcases List.mem_cons.mp hk with h | h
          · exact absurd h hkx
          · exact h
        have hbeq : (k == x) = false := beq_eq_false_iff_ne.mpr hkx
        simp [List.lookup, hbeq, ih k hk2]

/-- C8: the emitted headers are exactly the first row's keys (empty for a
rowless sheet), each column type is the `typeof` tag of the first row's
value at that header, and neither depends on later rows or the sheet
name — sheets sharing a first row share headers and column types. -/
theorem processSheet_first_row_types :
    (∀ s1 : String, (processSheet s1 []).headers = [] ∧
      (processSheet s1 []).columnTypes = []) ∧
    (∀ (s1 : String) (r : Row) (rest : List Row),
      (processSheet s1 (r :: rest)).headers = rowKeys r) ∧
    (∀ (s1 : String) (r : Row) (rest : List Row) (k : String),
      k ∈ (processSheet s1 (r :: rest)).headers →
      List.lookup k (processSheet s1 (r :: rest)).columnTypes
        = some (typeofTag (rowGet r k))) ∧
    (∀ (s1 s2 : String) (r : Row) (rest1 rest2 : List Row),
      (processSheet s1 (r :: rest1)).headers
          = (processSheet s2 (r :: rest2)).headers ∧
      (processSheet s1 (r :: rest1)).columnTypes
          = (processSheet s2 (r :: rest2)).columnTypes) := by
  refine ⟨fun s1 => ⟨rfl, rfl⟩, fun s1 r rest => rfl, ?_, ?_⟩
  · intro s1 r rest k hk
    exact lookup_map_self (fun h2 => typeofTag (rowGet r h2)) (rowKeys r) k hk
  · intro s1 s2 r rest1 rest2
    exact ⟨rfl, rfl⟩

/-- Witness for C8 on a concrete one-column sheet. -/
theorem processSheet_first_row_types_witness :
    List.lookup "a"
        (processSheet "S" [[("a", JSValue.str "x")], []]).columnTypes
      = some (typeofTag (rowGet [("a", JSValue.str "x")] "a")) :=
  processSheet_first_row_types.2.2.1 "S" [("a", JSValue.str "x")] [[]] "a"
    (by decide)

lemma toNumber_eq_some_jsNumber {v : JSValue}
    (h : (toNumber v).isSome = true) : toNumber v = some (jsNumber v) := by
  rcases Option.isSome_iff_exists.mp h with ⟨q, hq⟩
  simp [jsNumber, hq]

lemma filterMap_toNumber_eq_map (l : List JSValue)
    (h : ∀ v ∈ l, (toNumber v).isSome = true) :
    l.filterMap toNumber = l.map jsNumber := by
  induction l with
  | nil => rfl
  | cons x xs ih =>
      have hx := toNumber_eq_some_jsNumber (h x (List.mem_cons_self x xs))
      rw [List.filterMap_cons, hx, List.map_cons,
        ih (fun v hv => h v (List.mem_cons_of_mem x hv))]

lemma mul_length_le_sum (l : List ℚ) (m : ℚ) (h : ∀ x ∈ l, m ≤ x) :
    m * (l.length : ℚ) ≤ l.sum := by
  induction l with
  | nil => simp
  | cons x xs ih =>
      have h1 : m ≤ x := h x (List.mem_cons_self x xs)
      have h2 : m * (xs.length : ℚ) ≤ xs.sum :=
        ih (fun y hy => h y (List.mem_cons_of_mem x hy))
      simp only [List.length_cons, List.sum_cons]
      push_cast
      nlinarith [h1, h2]

lemma sum_le_mul_length (l : List ℚ) (m : ℚ) (h : ∀ x ∈ l, x ≤ m) :
    l.sum ≤ m * (l.length : ℚ) := by
  induction l with
  | nil => simp
  | cons x xs ih =>
      have h1 : x ≤ m := h x (List.mem_cons_self x xs)
      have h2 : xs.sum ≤ m * (xs.length : ℚ) :=
        ih (fun y hy => h y (List.mem_cons_of_mem x hy))
      simp only [List.length_cons, List.sum_cons]
      push_cast
      nlinarith [h1, h2]

/-- C2: on an all-coercible non-empty column the numeric record is emitted
with `sum` the total of the coerced values, `average = sum / count`,
`count` the number of surviving values, and `min`/`max` attained lower and
upper bounds of the coerced values; `[1,2,3]` yields
`{min:1, max:3, average:2, sum:6, count:3}`. -/
theorem getColumnStatistics_numeric_spec (data : List Row) (k : String)
    (hne : columnValues data k ≠ [])
    (hall : ∀ v ∈ columnValues data k, (toNumber v).isSome = true) :
    (∃ mn mx,
      getColumnStatistics data k = some (ColumnStats.numeric mn mx
        ((coercedColumn data k).sum / ((coercedColumn data k).length : ℚ))
        (coercedColumn data k).sum (coercedColumn data k).length) ∧
      (coercedColumn data k).length = (columnValues data k).length ∧
      mn ∈ coercedColumn data k ∧ (∀ x ∈ coercedColumn data k, mn ≤ x) ∧
      mx ∈ coercedColumn data k ∧ (∀ x ∈ coercedColumn data k, x ≤ mx)) ∧
    getColumnStatistics oneTwoThree "col"
      = some (ColumnStats.numeric 1 3 2 6 3) := by
  constructor
  · cases hv : columnValues data k with
    | nil => exact absurd hv hne
    | cons v vs =>
        have hall2 : ∀ w ∈ v :: vs, (toNumber w).isSome = true := hv ▸ hall
        have hcoerced : coercedColumn data k
            = jsNumber v :: vs.map jsNumber := by
          unfold coercedColumn
          rw [hv, filterMap_toNumber_eq_map (v :: vs) hall2, List.map_cons]
        rw [getColumnStatistics_cons data k v vs hv,
          if_pos (List.all_eq_true.mpr hall2), hcoerced]
        refine ⟨(vs.map jsNumber).foldl min (jsNumber v),
          (vs.map jsNumber).foldl max (jsNumber v), ?_, by simp, ?_, ?_, ?_, ?_⟩
        · rw [foldl_add_eq_sum, zero_add]
        · rcases foldl_min_mem (vs.map jsNumber) (jsNumber v) with h | h
          · rw [h]; exact List.mem_cons_self _ _
          · exact List.mem_cons_of_mem _ h
        · intro x hx
          rcases List.mem_cons.mp hx with h | h
          · exact h ▸ foldl_min_le_init (vs.map jsNumber) (jsNumber v)
          · exact foldl_min_le_mem (vs.map jsNumber) (jsNumber v) x h
        · rcases foldl_max_mem (vs.map jsNumber) (jsNumber v) with h | h
          · rw [h]; exact List.mem_cons_self _ _
          · exact List.mem_cons_of_mem _ h
        · intro x hx
          rcases List.mem_cons.mp hx with h | h
          · exact h ▸ init_le_foldl_max (vs.map jsNumber) (jsNumber v)
          · exact mem_le_foldl_max (vs.map jsNumber) (jsNumber v) x h
  · rw [getColumnStatistics_cons oneTwoThree "col" (JSValue.num 1)
      [JSValue.num 2, JSValue.num 3] (by decide), if_pos (by decide)]
    norm_num [List.foldl, jsNumber, toNumber, min_def, max_def]

/-- Witness for C2 at the all-numeric column `[1,2,3]`. -/
theorem getColumnStatistics_numeric_spec_witness :
    ∃ mn mx,
      getColumnStatistics oneTwoThree "col" = some (ColumnStats.numeric mn mx
        ((coercedColumn oneTwoThree "col").sum
          / ((coercedColumn oneTwoThree "col").length : ℚ))
        (coercedColumn oneTwoThree "col").sum
        (coercedColumn oneTwoThree "col").length) ∧
      (coercedColumn oneTwoThree "col").length
        = (columnValues oneTwoThree "col").length ∧
      mn ∈ coercedColumn oneTwoThree "col" ∧
      (∀ x ∈ coercedColumn oneTwoThree "col", mn ≤ x) ∧
      mx ∈ coercedColumn oneTwoThree "col" ∧
      (∀ x ∈ coercedColumn oneTwoThree "col", x ≤ mx) :=
  (getColumnStatistics_numeric_spec oneTwoThree "col" (by decide)
    (by decide)).1

lemma filter_ne_undef_replicate_null (n : Nat) :
    (List.replicate n JSValue.null).filter
        (fun v => decide (v ≠ JSValue.undef))
      = List.replicate n JSValue.null := by
  induction n with
  | zero => rfl
  | succ m ih =>
      rw [List.replicate_succ, List.filter_cons]
      simp only [ih]
      rw [if_pos (by decide)]

lemma columnValues_replicate_null (n : Nat) :
    columnValues (List.replicate n [("c", JSValue.null)]) "c"
      = List.replicate n JSValue.null := by
  unfold columnValues
  rw [List.map_replicate]
  exact filter_ne_undef_replicate_null n

lemma foldl_min_replicate (m : Nat) (a : ℚ) :
    (List.replicate m a).foldl min a = a := by
  induction m with
  | zero => rfl
  | succ j ih => rw [List.replicate_succ, List.foldl_cons, min_self]; exact ih

lemma foldl_max_replicate (m : Nat) (a : ℚ) :
    (List.replicate m a).foldl max a = a := by
  induction m with
  | zero => rfl
  | succ j ih => rw [List.replicate_succ, List.foldl_cons, max_self]; exact ih

/-- C9: only `undefined` is discarded by the projection, and the
coercibility test is the non-NaN coercion, under which `null` and the
empty string coerce to `0`, `true` to `1`, `false` to `0`; hence a column
of `n ≥ 1` `null` values takes the numeric branch and returns
`{min:0, max:0, average:0, sum:0, count:n}`. -/
theorem toNumber_coercion_nullish :
    toNumber JSValue.null = some 0 ∧
    toNumber (JSValue.str "") = some 0 ∧
    toNumber (JSValue.bool true) = some 1 ∧
    toNumber (JSValue.bool false) = some 0 ∧
    ∀ n : Nat, 1 ≤ n →
      getColumnStatistics (List.replicate n [("c", JSValue.null)]) "c"
        = some (ColumnStats.numeric 0 0 0 0 n) := by
  refine ⟨rfl, by decide, rfl, rfl, ?_⟩
  intro n hn
  obtain ⟨m, rfl⟩ : ∃ m, n = m + 1 := ⟨n - 1, by omega⟩
  have hv : columnValues (List.replicate (m + 1) [("c", JSValue.null)]) "c"
      = JSValue.null :: List.replicate m JSValue.null := by
    rw [columnValues_replicate_null, List.replicate_succ]
  rw [getColumnStatistics_cons _ _ _ _ hv]
  rw [if_pos ?hall]
  case hall =>
    refine List.all_eq_true.mpr ?_
    intro x hx
    rcases List.mem_cons.mp hx with h | h
    · subst h; rfl
    · rw [List.eq_of_mem_replicate h]; rfl
  have hjs : jsNumber JSValue.null = 0 := rfl
  rw [hjs, List.map_replicate, hjs, foldl_min_replicate, foldl_max_replicate,
    foldl_add_eq_sum, zero_add, List.sum_cons, List.sum_replicate, smul_zero,
    add_zero, zero_div]
  simp

/-- Witness for C9 at a two-row all-`null` column. -/
theorem toNumber_coercion_nullish_witness :
    getColumnStatistics (List.replicate 2 [("c", JSValue.null)]) "c"
      = some (ColumnStats.numeric 0 0 0 0 2) :=
  toNumber_coercion_nullish.2.2.2.2 2 (by decide)

/-- C10: every numeric record satisfies `count ≥ 1`,
`min ≤ average ≤ max`, `average * count = sum` over exact rational
arithmetic, and `min` and `max` are each attained by the coercion of some
surviving column value. -/
theorem numeric_stats_algebra (data : List Row) (k : String)
    (mn mx avg sm : ℚ) (c : Nat)
    (hres : getColumnStatistics data k
      = some (ColumnStats.numeric mn mx avg sm c)) :
    1 ≤ c ∧ mn ≤ avg ∧ avg ≤ mx ∧ avg * (c : ℚ) = sm ∧
    (∃ v ∈ columnValues data k, toNumber v = some mn) ∧
    (∃ v ∈ columnValues data k, toNumber v = some mx) := by
  cases hv : columnValues data k with
  | nil => rw [getColumnStatistics_nil data k hv] at hres; cases hres
  | cons v vs =>
      rw [getColumnStatistics_cons data k v vs hv] at hres
      by_cases hall : (v :: vs).all (fun x => (toNumber x).isSome) = true
      · rw [if_pos hall] at hres
        simp only [Option.some.injEq, ColumnStats.numeric.injEq] at hres
        obtain ⟨hmn, hmx, havg, hsm, hc⟩ := hres
        subst hmn; subst hmx; subst havg; subst hsm; subst hc
        have hall2 := List.all_eq_true.mp hall
        have hcpos : (0 : ℚ) < ((jsNumber v :: vs.map jsNumber).length : ℚ) := by
          simp only [List.length_cons]
          push_cast
          positivity
        have hsum : (jsNumber v :: vs.map jsNumber).foldl (· + ·) 0
            = (jsNumber v :: vs.map jsNumber).sum := by
          rw [foldl_add_eq_sum, zero_add]
        have hminle : ∀ x ∈ jsNumber v :: vs.map jsNumber,
            (vs.map jsNumber).foldl min (jsNumber v) ≤ x := by
          intro x hx
          rcases List.mem_cons.mp hx with h | h
          · exact h ▸ foldl_min_le_init (vs.map jsNumber) (jsNumber v)
          · exact foldl_min_le_mem (vs.map jsNumber) (jsNumber v) x h
        have hmaxle : ∀ x ∈ jsNumber v :: vs.map jsNumber,
            x ≤ (vs.map jsNumber).foldl max (jsNumber v) := by
          intro x hx
          rcases List.mem_cons.mp hx with h | h
          · exact h ▸ init_le_foldl_max (vs.map jsNumber) (jsNumber v)
          · exact mem_le_foldl_max (vs.map jsNumber) (jsNumber v) x h
        refine ⟨by simp, ?_, ?_, ?_, ?_, ?_⟩
        · rw [hsum, le_div_iff₀ hcpos]
          exact mul_length_le_sum _ _ hminle
        · rw [hsum, div_le_iff₀ hcpos]
          calc (jsNumber v :: vs.map jsNumber).sum
              ≤ ((vs.map jsNumber).foldl max (jsNumber v))
                  * ((jsNumber v :: vs.map jsNumber).length : ℚ) :=
                sum_le_mul_length _ _ hmaxle
            _ = _ := by ring
        · rw [div_mul_cancel₀ _ (ne_of_gt hcpos)]
        · have hmem : (vs.map jsNumber).foldl min (jsNumber v)
              ∈ jsNumber v :: vs.map jsNumber := by
            rcases foldl_min_mem (vs.map jsNumber) (jsNumber v) with h | h
            · rw [h]; exact List.mem_cons_self _ _
            · exact List.mem_cons_of_mem _ h
          rw [← List.map_cons] at hmem
          rcases List.mem_map.mp hmem with ⟨w, hw, hwval⟩
          exact ⟨w, hw, by
            rw [toNumber_eq_some_jsNumber (hall2 w hw), hwval]⟩
        · have hmem : (vs.map jsNumber).foldl max (jsNumber v)
              ∈ jsNumber v :: vs.map jsNumber := by
            rcases foldl_max_mem (vs.map jsNumber) (jsNumber v) with h | h
            · rw [h]; exact List.mem_cons_self _ _
            · exact List.mem_cons_of_mem _ h
          rw [← List.map_cons] at hmem
          rcases List.mem_map.mp hmem with ⟨w, hw, hwval⟩
          exact ⟨w, hw, by
            rw [toNumber_eq_some_jsNumber (hall2 w hw), hwval]⟩
      · rw [if_neg hall] at hres
        simp at hres

/-- Witness for C10 at the one-value column `[5]`. -/
theorem numeric_stats_algebra_witness :
    1 ≤ 1 ∧ (5 : ℚ) ≤ 5 ∧ (5 : ℚ) ≤ 5 ∧ (5 : ℚ) * ((1 : Nat) : ℚ) = 5 ∧
    (∃ v ∈ columnValues [[("col", JSValue.num 5)]] "col",
      toNumber v = some 5) ∧
    (∃ v ∈ columnValues [[("col", JSValue.num 5)]] "col",
      toNumber v = some 5) :=
  numeric_stats_algebra [[("col", JSValue.num 5)]] "col" 5 5 5 5 1
    (by simp [getColumnStatistics, columnValues, rowGet, jsNumber, toNumber])

end Excelera
